import Mathlib

/-!
Shallow embedding of the NeteaseCloudMusicApi gateway (`server.js`) in Lean 4.

Strings are modelled as `List Char` internally (Lean `Char` standing for a
JavaScript code point) and wrapped into `String` at the interfaces.  JS
objects are modelled as association lists with assignment semantics
(`objSet`): an assignment to an existing key replaces the value in place,
an assignment to a fresh key appends it.
-/

namespace NcmApi

/-- The set matched by the JavaScript regular-expression class `\s` and
removed by `String.prototype.trim` (ECMA-262 WhiteSpace plus
LineTerminator code points). -/
def jsWhitespace (c : Char) : Bool :=
  let n := c.toNat
  (9 ≤ n && n ≤ 13) || n == 32 || n == 160 || n == 0x1680 ||
    (0x2000 ≤ n && n ≤ 0x200A) || n == 0x2028 || n == 0x2029 ||
    n == 0x202F || n == 0x205F || n == 0x3000 || n == 0xFEFF

/-- `String.prototype.trim`: strip `jsWhitespace` from both ends. -/
def jsTrim (s : List Char) : List Char :=
  ((s.dropWhile jsWhitespace).reverse.dropWhile jsWhitespace).reverse

/-- Value of one hexadecimal digit, as `decodeURIComponent` reads them. -/
def hexDigit (c : Char) : Option Nat :=
  if '0' ≤ c ∧ c ≤ '9' then some (c.toNat - 48)
  else if 'a' ≤ c ∧ c ≤ 'f' then some (c.toNat - 87)
  else if 'A' ≤ c ∧ c ≤ 'F' then some (c.toNat - 55)
  else none

/-- Two hexadecimal digits right after a `%`: the escaped byte and the rest. -/
def pctPair : List Char → Option (Nat × List Char)
  | h1 :: h2 :: rest => do
    let a ← hexDigit h1
    let b ← hexDigit h2
    some (16 * a + b, rest)
  | _ => none

/-- `n` UTF-8 continuation bytes, each written as `%XX` with `0x80 ≤ XX ≤ 0xBF`. -/
def contBytes : Nat → List Char → Option (List Nat × List Char)
  | 0, cs => some ([], cs)
  | n + 1, '%' :: cs => do
    let (b, rest) ← pctPair cs
    if 0x80 ≤ b ∧ b ≤ 0xBF then do
      let (bs, rest2) ← contBytes n rest
      some (b :: bs, rest2)
    else none
  | _ + 1, _ => none

/-- Code point assembled from a masked UTF-8 lead value and continuation bytes. -/
def utf8Val (m : Nat) (bs : List Nat) : Nat :=
  bs.foldl (fun a b => a * 64 + (b - 0x80)) m

/-- Core of ECMA-262 `decodeURIComponent` (the `Decode` abstract operation
with an empty reserved set): `%XX` escapes are read as UTF-8 byte
sequences and re-assembled into code points; any malformed escape or
invalid sequence fails.  `fuel` bounds the recursion and is instantiated
with the length of the input, which each step strictly consumes. -/
def decodeCore : Nat → List Char → Option (List Char)
  | _, [] => some []
  | 0, _ :: _ => none
  | fuel + 1, '%' :: cs =>
    match pctPair cs with
    | none => none
    | some (b, rest) =>
      if b ≤ 0x7F then
        match decodeCore fuel rest with
        | none => none
        | some tail => some (Char.ofNat b :: tail)
      else if 0xC0 ≤ b ∧ b ≤ 0xDF then
        match contBytes 1 rest with
        | none => none
        | some (bs, rest2) =>
          let v := utf8Val (b - 0xC0) bs
          if 0x80 ≤ v then
            match decodeCore fuel rest2 with
            | none => none
            | some tail => some (Char.ofNat v :: tail)
          else none
      else if 0xE0 ≤ b ∧ b ≤ 0xEF then
        match contBytes 2 rest with
        | none => none
        | some (bs, rest2) =>
          let v := utf8Val (b - 0xE0) bs
          if 0x800 ≤ v ∧ (v < 0xD800 ∨ 0xDFFF < v) then
            match decodeCore fuel rest2 with
            | none => none
            | some tail => some (Char.ofNat v :: tail)
          else none
      else if 0xF0 ≤ b ∧ b ≤ 0xF7 then
        match contBytes 3 rest with
        | none => none
        | some (bs, rest2) =>
          let v := utf8Val (b - 0xF0) bs
          if 0x10000 ≤ v ∧ v ≤ 0x10FFFF then
            match decodeCore fuel rest2 with
            | none => none
            | some tail => some (Char.ofNat v :: tail)
          else none
      else none
  | fuel + 1, c :: cs =>
    match decodeCore fuel cs with
    | none => none
    | some tail => some (c :: tail)

/-- The `safe-decode-uri-component` dependency used as `decode` in
`server.js`: `decodeURIComponent`, returning the input unchanged when
decoding raises `URIError`. -/
def decode (s : List Char) : List Char :=
  match decodeCore s.length s with
  | some r => r
  | none => s

/-- Length of the maximal run of `jsWhitespace` characters starting at
index `i` (the greedy match of `\s+` at that position). -/
def wsRun (s : List Char) (i : Nat) : Nat :=
  ((s.drop i).takeWhile jsWhitespace).length

/-- Match of the cookie-splitting regular expression
`;\s+|(?<!\s)\s+$` at exactly position `q` (sticky semantics, as
`String.prototype.split` uses): `some e` is the end of the match.
The first alternative needs a `;` followed by at least one whitespace
character; the second matches a whitespace run that reaches the end of
the string and is not preceded by whitespace. -/
def cookieMatchAt (s : List Char) (q : Nat) : Option Nat :=
  if s.getD q (Char.ofNat 0) = ';' ∧ 0 < wsRun s (q + 1) then
    some (q + 1 + wsRun s (q + 1))
  else if q < s.length ∧ (q = 0 ∨ jsWhitespace (s.getD (q - 1) (Char.ofNat 0)) = false) ∧
      wsRun s q = s.length - q then
    some s.length
  else none

/-- The scan of `String.prototype.split`: `p` is the start of the piece
being built, `q` the probe position; a match at `q` emits the piece
`[p, q)` and restarts after the match.  `fuel` bounds the loop and is
instantiated with `length + 1`, enough since `q` strictly increases. -/
def cookieSplitGo : Nat → List Char → Nat → Nat → List (List Char)
  | 0, s, p, _ => [s.drop p]
  | fuel + 1, s, p, q =>
    if q < s.length then
      match cookieMatchAt s q with
      | some e => (s.drop p).take (q - p) :: cookieSplitGo fuel s e e
      | none => cookieSplitGo fuel s p (q + 1)
    else [s.drop p]

/-- `raw.split(/;\s+|(?<!\s)\s+$/g)` from the cookie middleware. -/
def cookieSplit (s : List Char) : List (List Char) :=
  cookieSplitGo (s.length + 1) s 0 0

/-- JavaScript object assignment `m[k] = v`: replace the value of an
existing key in place, append a fresh key at the end. -/
def objSet {α : Type} : List (String × α) → String → α → List (String × α)
  | [], k, v => [(k, v)]
  | (k0, v0) :: t, k, v =>
    if k = k0 then (k0, v) :: t else (k0, v0) :: objSet t k v

/-- JavaScript property read `m[k]`: the first binding of the key. -/
def objGet {α : Type} : List (String × α) → String → Option α
  | [], _ => none
  | (k0, v0) :: t, k => if k = k0 then some v0 else objGet t k

/-- First-some choice on options, used to state merge precedence. -/
def orElseO {α : Type} : Option α → Option α → Option α
  | some v, _ => some v
  | none, b => b

/-- Last binding of a key in an association list: the value the key holds
once every pair has been assigned in order. -/
def objLast {α : Type} (m : List (String × α)) (k : String) : Option α :=
  objGet m.reverse k

/-- Body of the `forEach` in the cookie middleware: split the fragment at
its first `=`; drop it when there is no `=`, the `=` is first, or the
`=` is last; otherwise store the percent-decoded, trimmed key and value. -/
def addPair (m : List (String × String)) (pair : List Char) : List (String × String) :=
  match pair.findIdx? (fun c => c == '=') with
  | none => m
  | some crack =>
    if crack = 0 ∨ crack = pair.length - 1 then m
    else
      objSet m ⟨jsTrim (decode (pair.take crack))⟩ ⟨jsTrim (decode (pair.drop (crack + 1)))⟩

/-- The cookie-parsing middleware of `server.js` applied to a raw
`Cookie` header value: `req.cookies` after the middleware ran. -/
def parseCookiesL (s : List Char) : List (String × String) :=
  (cookieSplit s).foldl addPair []

/-- String-level wrapper of `parseCookiesL`. -/
def parseCookies (header : String) : List (String × String) :=
  parseCookiesL header.toList

/-! ## Module registry: route derivation and discovery (`getModulesDefinitions`) -/

/-- `fileName.replace(/\.js$/i, '')`: drop a final `.js`, matched without
regard to case. -/
def stripJsSuffix (f : List Char) : List Char :=
  if 3 ≤ f.length ∧ (f.drop (f.length - 3)).map Char.toLower = ['.', 'j', 's'] then
    f.take (f.length - 3)
  else f

/-- `.replace(/_/g, '/')`: every underscore becomes a path separator. -/
def underscoreToSlash (f : List Char) : List Char :=
  f.map (fun c => if c = '_' then '/' else c)

/-- Default route derivation of `parseRoute` in `getModulesDefinitions`. -/
def parseRouteDefault (fileName : String) : String :=
  ⟨'/' :: underscoreToSlash (stripJsSuffix fileName.toList)⟩

/-- The `parseRoute` closure: a filename present in the override table maps
to its entry verbatim, every other one to the derived route. -/
def parseRoute (specificRoute : Option (List (String × String))) (fileName : String) : String :=
  match specificRoute with
  | some tbl =>
    match objGet tbl fileName with
    | some r => r
    | none => parseRouteDefault fileName
  | none => parseRouteDefault fileName

/-- The `special` override table of `consturctServer`. -/
def special : List (String × String) :=
  [("daily_signin.js", "/daily_signin"),
   ("fm_trash.js", "/fm_trash"),
   ("personal_fm.js", "/personal_fm")]

/-- `file.endsWith('.js')`, the case-sensitive discovery filter. -/
def endsWithJs (f : String) : Bool :=
  decide (3 ≤ f.toList.length ∧ f.toList.drop (f.toList.length - 3) = ['.', 'j', 's'])

/-- `file.split('.').shift()`: the part of the filename before its first dot. -/
def identifierOf (f : String) : String :=
  ⟨f.toList.takeWhile (fun c => c ≠ '.')⟩

/-- One entry of the registry; `modFile` stands for the loaded module,
identified by the file it was required from. -/
structure ModuleDefinition where
  identifier : String
  route : String
  modFile : String
deriving DecidableEq, Repr

/-- `getModulesDefinitions`: reverse the directory listing, keep the `.js`
files, and build one definition per file. -/
def getModulesDefinitions (files : List String)
    (specificRoute : Option (List (String × String))) : List ModuleDefinition :=
  ((files.reverse).filter endsWithJs).map fun f =>
    { identifier := identifierOf f
      route := parseRoute specificRoute f
      modFile := f }

/-! ## Parameter assembly (route handler, `server.js` lines 213-227) -/

/-- A value held by a request-parameter object: a string, a cookie map, or
some other value (number, array, uploaded file, ...) left opaque. -/
inductive PVal
  | pstr (s : String)
  | pmap (m : List (String × String))
  | pother (n : Nat)
deriving DecidableEq, Repr

/-- Modelled from the spec: `cookieToJson` lives in `util/index.js`, which
is not under `src/`.  Section 4.2 of the spec says the codec also exposes
`serialize(cookieString) → CookieMap` with the same decode+parse rule as
header parsing, applied to a string value; so it is the cookie parse of
the raw string. -/
def cookieToJson (s : List Char) : List (String × String) :=
  parseCookiesL s

/-- One iteration of the `forEach` over `[req.query, req.body]`: when the
source carries a string-valued `cookie` field, replace it in place by
`cookieToJson(decode(value))`. -/
def normalizeCookieParam (item : List (String × PVal)) : List (String × PVal) :=
  match objGet item "cookie" with
  | some (PVal.pstr s) => objSet item "cookie" (PVal.pmap (cookieToJson (decode s.toList)))
  | _ => item

/-- The whole `forEach`: `req.query` and `req.body` are normalized
independently. -/
def prepRouteParams (query reqBody : List (String × PVal)) :
    List (String × PVal) × List (String × PVal) :=
  (normalizeCookieParam query, normalizeCookieParam reqBody)

/-- `Object.assign(t, s)`: copy the bindings of `s` onto `t` in order. -/
def objAssign {α : Type} (t s : List (String × α)) : List (String × α) :=
  s.foldl (fun a kv => objSet a kv.1 kv.2) t

/-- The parameter bag
`Object.assign({}, {cookie: req.cookies}, req.query, req.body, req.files)`. -/
def assembleBag (cookies : List (String × String))
    (query reqBody files : List (String × PVal)) : List (String × PVal) :=
  objAssign (objAssign (objAssign (objAssign [] [("cookie", PVal.pmap cookies)]) query) reqBody) files

/-! ## Outbound-call wrapper: client-IP normalization and injection -/

/-- A positional argument of the outbound call: an options object, the JS
`undefined`, or some other value left opaque. -/
inductive CallArg
  | obj (o : List (String × String))
  | undef
  | prim (n : Nat)
deriving DecidableEq, Repr

/-- Object spread `{...a}` of an argument slot: an object contributes its
bindings, `undefined` and (non-string) primitives contribute nothing. -/
def spreadArg : CallArg → List (String × String)
  | CallArg.obj o => o
  | _ => []

/-- Array read `args[i]`: `undefined` past the end. -/
def getArg (args : List CallArg) (i : Nat) : CallArg :=
  args.getD i CallArg.undef

/-- Array write `args[i] = v`, extending with `undefined` holes as JS does. -/
def setArg : List CallArg → Nat → CallArg → List CallArg
  | [], 0, v => [v]
  | [], n + 1, v => CallArg.undef :: setArg [] n v
  | _ :: t, 0, v => v :: t
  | a :: t, n + 1, v => a :: setArg t n v

/-- The IP fix-up of the wrapper: strip a leading `::ffff:`
(`ip.substr(0, 7) == '::ffff:'` then `ip.substr(7)`). -/
def normalizeIP (ip : String) : String :=
  if ip.toList.take 7 = "::ffff:".toList then ⟨ip.toList.drop 7⟩ else ip

/-- The argument list the wrapper hands to `request`:
`obj = [...params]; obj[3] = {...obj[3], ip}`. -/
def injectClientIP (reqIp : String) (params : List CallArg) : List CallArg :=
  setArg params 3
    (CallArg.obj (objSet (spreadArg (getArg params 3)) "ip" (normalizeIP reqIp)))

/-! ## Dispatcher: success and failure translation (`server.js` lines 229-284) -/

/-- The value of a `code` field as loose equality sees it: a number, a
string, or anything for which `code == '301'` is false (absent, `null`,
booleans, ...). -/
inductive CodeVal
  | cnum (n : Int)
  | cstr (s : String)
  | cnone
deriving DecidableEq, Repr

/-- JavaScript `body.code == '301'`: a number compares with the numeric
value of `'301'`, a string compares character for character. -/
def looseEq301 : CodeVal → Bool
  | CodeVal.cnum n => n == 301
  | CodeVal.cstr s => s == "301"
  | CodeVal.cnone => false

/-- A truthy failure body: its `code`, its `msg`, and an opaque residue
standing for every other field. -/
structure BodyObj where
  code : CodeVal
  msg : Option String
  rest : Nat
deriving DecidableEq, Repr

/-- A rejected `HandlerFailure`: `body := none` models an absent or falsy
body, `cookie := none` an absent `cookie` field. -/
structure HandlerFailure where
  status : Nat
  body : Option BodyObj
  cookie : Option (List String)
deriving DecidableEq, Repr

/-- What the failure path sends: the fixed JSON literal of the 404 branch,
or the (possibly mutated) failure body. -/
inductive SentBody
  | fixedJson (code : Nat) (dataNull : Bool) (msg : String)
  | obj (b : BodyObj)
deriving DecidableEq, Repr

/-- The HTTP response the failure path writes.  `setCookie = none` means
`res.append('Set-Cookie', …)` was never called; `some v` means it was
called with `v`, where `v = none` is the JS `undefined`. -/
structure FailureResponse where
  status : Nat
  body : SentBody
  setCookie : Option (Option (List String))
deriving DecidableEq, Repr

/-- The fixed message written over `body.msg` on the 301 branch. -/
def loginRequiredMsg : String := "需要登录"

/-- The `catch` block of the dispatcher. -/
def handleFailure (f : HandlerFailure) : FailureResponse :=
  match f.body with
  | none =>
    { status := 404
      body := SentBody.fixedJson 404 true "Not Found"
      setCookie := none }
  | some b =>
    let b2 := if looseEq301 b.code then { b with msg := some loginRequiredMsg } else b
    { status := f.status
      body := SentBody.obj b2
      setCookie := some f.cookie }

/-- The `cookie` field of a resolved `HandlerResult`: an array of
Set-Cookie strings, absent, or some non-array value. -/
inductive CookieField
  | arr (l : List String)
  | undef
  | prim (n : Nat)
deriving DecidableEq, Repr

/-- A resolved `HandlerResult` with an opaque payload. -/
structure HandlerResult where
  status : Nat
  bodyVal : Nat
  cookie : CookieField
deriving DecidableEq, Repr

/-- The HTTP response the success path writes. -/
structure SuccessResponse where
  status : Nat
  bodyVal : Nat
  setCookie : Option (List String)
deriving DecidableEq, Repr

/-- The success path of the dispatcher: append `Set-Cookie` only for a
non-empty array, rewriting each cookie under HTTPS, then send the
handler status and body. -/
def handleSuccess (https : Bool) (r : HandlerResult) : SuccessResponse :=
  let sc : Option (List String) :=
    match r.cookie with
    | CookieField.arr l =>
      if 0 < l.length then
        some (if https then l.map (fun c => c ++ "; SameSite=None; Secure") else l)
      else none
    | _ => none
  { status := r.status, bodyVal := r.bodyVal, setCookie := sc }

/-! ## Response cache (registration at `server.js` line 192) -/

/-- One stored response of the cache. -/
structure CacheEntry where
  key : String
  status : Nat
  bodyVal : Nat
  insertedAt : Nat
deriving DecidableEq, Repr

/-- `'2 minutes'`, in milliseconds. -/
def cacheTTL : Nat := 120000

/-- An entry still valid at `now`. -/
def freshAt (now : Nat) (e : CacheEntry) : Bool :=
  decide (now < e.insertedAt + cacheTTL)

/-- Fresh entry stored under the request-identity key, if any. -/
def cacheLookup (st : List CacheEntry) (key : String) (now : Nat) : Option CacheEntry :=
  st.find? (fun e => decide (e.key = key) && freshAt now e)

/-- Outcome of one request through the caching middleware. -/
structure ServeOutcome where
  state : List CacheEntry
  status : Nat
  bodyVal : Nat
  handlerInvoked : Bool
deriving DecidableEq, Repr

/-- Modelled from the spec: the caching middleware itself is
`util/apicache`, which is not under `src/`; `server.js` only registers it
as `cache('2 minutes', (_, res) => res.statusCode === 200)`.  Section 4.4
of the spec: serve a non-expired entry directly and skip the dispatcher;
otherwise run the handler (whose response for this request is
`handlerStatus`/`handlerBody`) and store the response exactly when its
status is 200, with a 2-minute expiry; nothing else ever removes an
entry. -/
def serveWithCache (st : List CacheEntry) (key : String) (now : Nat)
    (handlerStatus handlerBody : Nat) : ServeOutcome :=
  match cacheLookup st key now with
  | some e => { state := st, status := e.status, bodyVal := e.bodyVal, handlerInvoked := false }
  | none =>
    if handlerStatus = 200 then
      { state := { key := key, status := handlerStatus, bodyVal := handlerBody, insertedAt := now } :: st
        status := handlerStatus
        bodyVal := handlerBody
        handlerInvoked := true }
    else
      { state := st, status := handlerStatus, bodyVal := handlerBody, handlerInvoked := true }

/-! ## Helper lemmas -/

theorem getD_drop_zero {α : Type} :
    ∀ (l : List α) (i : Nat) (d : α), (l.drop i).getD 0 d = l.getD i d
  | _, 0, _ => rfl
  | [], _ + 1, _ => rfl
  | _ :: t, i + 1, d => getD_drop_zero t i d

theorem takeWhile_pos_head {α : Type} {p : α → Bool} :
    ∀ (l : List α) (d : α), 0 < (l.takeWhile p).length → p (l.getD 0 d) = true
  | [], _, h => by simp [List.takeWhile] at h
  | c :: t, d, h => by
    by_cases hc : p c
    · simpa [List.getD] using hc
    · simp [List.takeWhile_cons, hc] at h

theorem takeWhile_full {α : Type} {p : α → Bool} :
    ∀ l : List α, (l.takeWhile p).length = l.length → ∀ c ∈ l, p c = true
  | [], _, c, hc => by simp at hc
  | a :: t, h, c, hc => by
    by_cases ha : p a
    · rcases List.mem_cons.mp hc with rfl | hct
      · exact ha
      · exact takeWhile_full t (by simpa [List.takeWhile_cons, ha] using h) c hct
    · exfalso
      rw [List.takeWhile_cons, if_neg (by simpa using ha)] at h
      simp at h

theorem objGet_objSet {α : Type} :
    ∀ (m : List (String × α)) (k0 : String) (v0 : α) (k : String),
      objGet (objSet m k0 v0) k = if k = k0 then some v0 else objGet m k
  | [], k0, v0, k => by simp [objSet, objGet]
  | (k1, v1) :: t, k0, v0, k => by
    simp only [objSet]
    by_cases h01 : k0 = k1
    · rw [if_pos h01]
      subst h01
      by_cases hk : k = k0 <;> simp [objGet, hk]
    · rw [if_neg h01]
      by_cases hk1 : k = k1
      · have hk0 : ¬ k = k0 := by rw [hk1]; exact fun e => h01 e.symm
        have h10 : ¬ k1 = k0 := fun e => h01 e.symm
        simp [objGet, hk1, hk0, h10]
      · simp [objGet, hk1, objGet_objSet t k0 v0 k]

theorem objGet_append {α : Type} :
    ∀ (l1 l2 : List (String × α)) (k : String),
      objGet (l1 ++ l2) k = orElseO (objGet l1 k) (objGet l2 k)
  | [], l2, k => rfl
  | (k1, v1) :: t, l2, k => by
    by_cases hk : k = k1 <;> simp [objGet, hk, orElseO, objGet_append t l2 k]

theorem objLast_cons {α : Type} (p : String × α) (s : List (String × α)) (k : String) :
    objLast (p :: s) k = orElseO (objLast s k) (if k = p.1 then some p.2 else none) := by
  unfold objLast
  rw [List.reverse_cons, objGet_append]
  rcases p with ⟨k1, v1⟩
  by_cases hk : k = k1 <;> simp [objGet, hk]

theorem objGet_objAssign {α : Type} :
    ∀ (s t : List (String × α)) (k : String),
      objGet (objAssign t s) k = orElseO (objLast s k) (objGet t k)
  | [], t, k => by simp [objAssign, objLast, objGet, orElseO, List.foldl]
  | p :: s, t, k => by
    have ih := objGet_objAssign s (objSet t p.1 p.2) k
    have h1 : objAssign t (p :: s) = objAssign (objSet t p.1 p.2) s := rfl
    rw [h1, ih, objGet_objSet, objLast_cons]
    cases hl : objLast s k with
    | some v => simp [orElseO]
    | none => by_cases hk : k = p.1 <;> simp [orElseO, hk]

theorem objGet_eq_none {α : Type} :
    ∀ (m : List (String × α)) (k : String), k ∉ m.map Prod.fst → objGet m k = none
  | [], _, _ => rfl
  | (k1, v1) :: t, k, h => by
    have hk : ¬ k = k1 := fun e => h (by simp [e])
    rw [objGet, if_neg hk]
    exact objGet_eq_none t k fun hm => h (by simp [hm])

theorem objLast_eq_objGet {α : Type} :
    ∀ m : List (String × α), (m.map Prod.fst).Nodup → ∀ k, objLast m k = objGet m k
  | [], _, _ => rfl
  | (k1, v1) :: t, h, k => by
    rw [objLast_cons]
    simp only [List.map_cons, List.nodup_cons, List.mem_map] at h
    have hnd : k1 ∉ t.map Prod.fst ∧ (t.map Prod.fst).Nodup := by
      refine ⟨fun hm => ?_, h.2⟩
      rcases List.mem_map.mp hm with ⟨⟨qk, qv⟩, hq, he⟩
      exact h.1 ⟨(qk, qv), hq, he⟩
    have h2 := objLast_eq_objGet t hnd.2 k
    by_cases hk : k = k1
    · subst hk
      rw [h2, objGet_eq_none t k hnd.1]
      simp [orElseO, objGet]
    · rw [h2, objGet, if_neg hk]
      cases hg : objGet t k <;> simp [orElseO, hk]

theorem getArg_setArg_self :
    ∀ (l : List CallArg) (i : Nat) (v : CallArg), getArg (setArg l i v) i = v
  | [], 0, _ => rfl
  | [], i + 1, v => getArg_setArg_self [] i v
  | _ :: _, 0, _ => rfl
  | _ :: t, i + 1, v => getArg_setArg_self t i v

theorem getArg_setArg_ne :
    ∀ (l : List CallArg) (i j : Nat) (v : CallArg), j ≠ i → getArg (setArg l i v) j = getArg l j
  | [], 0, 0, _, h => absurd rfl h
  | [], 0, _ + 1, _, _ => rfl
  | [], _ + 1, 0, _, _ => rfl
  | [], i + 1, j + 1, v, h => getArg_setArg_ne [] i j v fun e => h (by rw [e])
  | _ :: _, 0, 0, _, h => absurd rfl h
  | _ :: _, 0, _ + 1, _, _ => rfl
  | _ :: _, _ + 1, 0, _, _ => rfl
  | _ :: t, i + 1, j + 1, v, h => getArg_setArg_ne t i j v fun e => h (by rw [e])

theorem cacheLookup_cons (e : CacheEntry) (st : List CacheEntry) (key : String) (now : Nat) :
    cacheLookup (e :: st) key now =
      if e.key = key ∧ now < e.insertedAt + cacheTTL then some e else cacheLookup st key now := by
  unfold cacheLookup freshAt
  by_cases h1 : e.key = key
  · by_cases h2 : now < e.insertedAt + cacheTTL
    · simp [List.find?_cons, h1, h2]
    · simp [List.find?_cons, h1, h2]
  · simp [List.find?_cons, h1]

/-! ## Claim theorems -/

/-- C1 (counterexample): the claim says `parse("a=1;b") = {a:"1"}` with the
fragment `b` dropped; the middleware splits only on `;` followed by
whitespace, so `a=1;b` is one fragment and parses to `{a:"1;b"}`. -/
theorem C1_claim_counterexample :
    parseCookies "a=1;b" = [("a", "1;b")] ∧ parseCookies "a=1;b" ≠ [("a", "1")] :=
  ⟨by decide, by decide⟩

/-- C1 (amended): the cookie middleware splits the raw header on `;`
followed by one-or-more whitespace characters, or on a trailing
whitespace run at end-of-string — a bare `;` with no following
whitespace does not split.  Each fragment is split at its first `=`; a
fragment with no `=`, an `=` at position 0, or an `=` as its last
character is silently discarded, and each kept key and value is
percent-decoded and trimmed.  In particular `parse("a=1; b=2") =
{a:"1", b:"2"}`, `parse("a=1;b") = {a:"1;b"}`, `parse("=1") = {}` and
`parse("a=") = {}`. -/
theorem C1_cookie_parsing_amended :
    parseCookies "a=1; b=2" = [("a", "1"), ("b", "2")] ∧
    parseCookies "a=1;b" = [("a", "1;b")] ∧
    parseCookies "=1" = [] ∧
    parseCookies "a=" = [] ∧
    parseCookies "a=1;b=2" = [("a", "1;b=2")] ∧
    (∀ s q, cookieMatchAt s q = none ∨
      (s.getD q (Char.ofNat 0) = ';' ∧ jsWhitespace (s.getD (q + 1) (Char.ofNat 0)) = true) ∨
      (q < s.length ∧ ∀ c ∈ s.drop q, jsWhitespace c = true)) ∧
    (∀ m pair, addPair m pair = m ∨
      ∃ i, pair.findIdx? (fun c => c == '=') = some i ∧ i ≠ 0 ∧ i ≠ pair.length - 1 ∧
        addPair m pair =
          objSet m ⟨jsTrim (decode (pair.take i))⟩ ⟨jsTrim (decode (pair.drop (i + 1)))⟩) := by
  refine ⟨by decide, by decide, by decide, by decide, by decide, ?_, ?_⟩
  · intro s q
    unfold cookieMatchAt
    by_cases h1 : s.getD q (Char.ofNat 0) = ';' ∧ 0 < wsRun s (q + 1)
    · right; left
      refine ⟨h1.1, ?_⟩
      have hh := takeWhile_pos_head (s.drop (q + 1)) (Char.ofNat 0) h1.2
      rwa [getD_drop_zero] at hh
    · rw [if_neg h1]
      by_cases h2 : q < s.length ∧
          (q = 0 ∨ jsWhitespace (s.getD (q - 1) (Char.ofNat 0)) = false) ∧
          wsRun s q = s.length - q
      · right; right
        refine ⟨h2.1, fun c hc => ?_⟩
        refine takeWhile_full (s.drop q) ?_ c hc
        rw [List.length_drop]
        exact h2.2.2
      · rw [if_neg h2]
        left
        rfl
  · intro m pair
    rcases hidx : pair.findIdx? (fun c => c == '=') with _ | i
    · left
      simp [addPair, hidx]
    · by_cases hd : i = 0 ∨ i = pair.length - 1
      · left
        simp [addPair, hidx, hd]
      · right
        exact ⟨i, rfl, fun e => hd (Or.inl e), fun e => hd (Or.inr e),
          by simp [addPair, hidx, hd]⟩

/-- C2: a failure whose body is absent or falsy is answered with status 404
and the fixed envelope `{code: 404, data: null, msg: "Not Found"}`,
whatever the failure's own status, with no cookie appended and nothing
of the failure's own body sent. -/
theorem C2_missing_body_404 (f : HandlerFailure) (h : f.body = none) :
    handleFailure f =
      { status := 404, body := SentBody.fixedJson 404 true "Not Found", setCookie := none } := by
  unfold handleFailure
  rw [h]

theorem C2_missing_body_404_witness :
    handleFailure { status := 503, body := none, cookie := some ["k=v"] } =
      { status := 404, body := SentBody.fixedJson 404 true "Not Found", setCookie := none } :=
  C2_missing_body_404 { status := 503, body := none, cookie := some ["k=v"] } rfl

/-- C3: a truthy failure body whose `code` loosely equals `"301"` — both
the string `"301"` and the number `301` match — gets its `msg`
overwritten with the fixed login-required message; the response carries
the failure's own status and the original `code`; any other `code`
passes status and body through verbatim. -/
theorem C3_code301_login (f : HandlerFailure) (b : BodyObj) (h : f.body = some b) :
    (looseEq301 b.code = true →
      handleFailure f =
        { status := f.status
          body := SentBody.obj { code := b.code, msg := some loginRequiredMsg, rest := b.rest }
          setCookie := some f.cookie }) ∧
    (looseEq301 b.code = false →
      handleFailure f =
        { status := f.status, body := SentBody.obj b, setCookie := some f.cookie }) ∧
    looseEq301 (CodeVal.cstr "301") = true ∧
    looseEq301 (CodeVal.cnum 301) = true := by
  refine ⟨?_, ?_, by decide, by decide⟩
  · intro h301
    unfold handleFailure
    rw [h]
    simp [h301]
  · intro h301
    unfold handleFailure
    rw [h]
    simp [h301]

theorem C3_code301_login_witness :
    handleFailure
        { status := 502
          body := some { code := CodeVal.cstr "301", msg := some "x", rest := 3 }
          cookie := none } =
      { status := 502
        body := SentBody.obj { code := CodeVal.cstr "301", msg := some loginRequiredMsg, rest := 3 }
        setCookie := some none } ∧
    handleFailure
        { status := 418
          body := some { code := CodeVal.cnum 200, msg := none, rest := 0 }
          cookie := some ["a"] } =
      { status := 418
        body := SentBody.obj { code := CodeVal.cnum 200, msg := none, rest := 0 }
        setCookie := some (some ["a"]) } :=
  ⟨(C3_code301_login _ _ rfl).1 (by decide), (C3_code301_login _ _ rfl).2.1 (by decide)⟩

/-- C4: a filename ending in the module suffix that is not in the override
table derives its route by stripping the suffix, turning every
underscore into a path separator and prefixing one; a filename in the
table maps to its entry verbatim.  So `user_detail.js` gives
`/user/detail` while `daily_signin.js` gives `/daily_signin`. -/
theorem C4_route_derivation :
    parseRoute (some special) "user_detail.js" = "/user/detail" ∧
    parseRoute (some special) "daily_signin.js" = "/daily_signin" ∧
    ("/daily_signin" : String) ≠ "/daily/signin" ∧
    (∀ tbl f r, objGet tbl f = some r → parseRoute (some tbl) f = r) ∧
    (∀ tbl stem, objGet tbl (⟨stem ++ ".js".toList⟩ : String) = none →
      parseRoute (some tbl) ⟨stem ++ ".js".toList⟩ =
        ⟨'/' :: stem.map (fun c => if c = '_' then '/' else c)⟩) := by
  refine ⟨by decide, by decide, by decide, ?_, ?_⟩
  · intro tbl f r h
    simp [parseRoute, h]
  · intro tbl stem h
    simp only [parseRoute, h]
    have hlen : (stem ++ ".js".toList).length - 3 = stem.length := by
      simp [List.length_append]
    have hdrop : (stem ++ ".js".toList).drop ((stem ++ ".js".toList).length - 3) = ".js".toList := by
      rw [hlen]
      exact List.drop_left' rfl
    have htake : (stem ++ ".js".toList).take ((stem ++ ".js".toList).length - 3) = stem := by
      rw [hlen]
      exact List.take_left' rfl
    have hcond : 3 ≤ (stem ++ ".js".toList).length ∧
        ((stem ++ ".js".toList).drop ((stem ++ ".js".toList).length - 3)).map Char.toLower
          = ['.', 'j', 's'] := by
      refine ⟨by simp [List.length_append], ?_⟩
      rw [hdrop]
      decide
    show (⟨'/' :: underscoreToSlash (stripJsSuffix (stem ++ ".js".toList))⟩ : String) = _
    unfold stripJsSuffix
    rw [if_pos hcond, htake]
    rfl

theorem C4_route_derivation_witness :
    parseRoute (some [("a.js", "/b")]) "a.js" = "/b" ∧
    parseRoute (some []) ⟨"user_detail".toList ++ ".js".toList⟩ = "/user/detail" := by
  refine ⟨C4_route_derivation.2.2.2.1 [("a.js", "/b")] "a.js" "/b" (by decide), ?_⟩
  have h := C4_route_derivation.2.2.2.2 [] "user_detail".toList (by decide)
  rw [h]
  decide

/-- C5: the parameter bag is `{cookie: parsedCookies}` overridden by
query, then body, then files — on every key the last source that binds
it wins; with four sources all binding `a`, the bag holds the files
value. -/
theorem C5_merge_precedence :
    (∀ cookies query reqBody files k,
      objGet (assembleBag cookies query reqBody files) k =
        orElseO (objLast files k) (orElseO (objLast reqBody k) (orElseO (objLast query k)
          (if k = "cookie" then some (PVal.pmap cookies) else none)))) ∧
    (∀ (m : List (String × PVal)) k, (m.map Prod.fst).Nodup → objLast m k = objGet m k) ∧
    objGet (assembleBag [("a", "1")] [("a", PVal.pstr "2")] [("a", PVal.pstr "3")]
        [("a", PVal.pstr "4")]) "a" = some (PVal.pstr "4") := by
  refine ⟨?_, fun m k h => objLast_eq_objGet m h k, by decide⟩
  intro cookies query reqBody files k
  unfold assembleBag
  rw [objGet_objAssign, objGet_objAssign, objGet_objAssign, objGet_objAssign]
  have h1 : orElseO (objLast [("cookie", PVal.pmap cookies)] k)
      (objGet ([] : List (String × PVal)) k)
      = (if k = "cookie" then some (PVal.pmap cookies) else none) := by
    by_cases hk : k = "cookie" <;> simp [objLast, objGet, orElseO, hk]
  rw [h1]

/-- C6: for query and body independently, a string-valued `cookie` field
is replaced in place by the cookie map parsed from its percent-decoded
value, before merging; a non-string `cookie` field is left untouched. -/
theorem C6_embedded_cookie_string :
    (∀ item s, objGet item "cookie" = some (PVal.pstr s) →
      normalizeCookieParam item =
        objSet item "cookie" (PVal.pmap (cookieToJson (decode s.toList)))) ∧
    (∀ item, (∀ s, objGet item "cookie" ≠ some (PVal.pstr s)) →
      normalizeCookieParam item = item) ∧
    (∀ query reqBody, prepRouteParams query reqBody =
      (normalizeCookieParam query, normalizeCookieParam reqBody)) ∧
    normalizeCookieParam [("cookie", PVal.pstr "a=1; b=2")] =
      [("cookie", PVal.pmap [("a", "1"), ("b", "2")])] ∧
    normalizeCookieParam [("cookie", PVal.pother 5)] = [("cookie", PVal.pother 5)] := by
  refine ⟨?_, ?_, fun _ _ => rfl, by decide, by decide⟩
  · intro item s h
    unfold normalizeCookieParam
    rw [h]
  · intro item h
    unfold normalizeCookieParam
    cases hg : objGet item "cookie" with
    | none => rfl
    | some v =>
      cases v with
      | pstr s => exact absurd hg (h s)
      | pmap m => rfl
      | pother n => rfl

theorem C6_embedded_cookie_string_witness :
    normalizeCookieParam [("uid", PVal.pstr "7"), ("cookie", PVal.pstr "a=1")] =
      [("uid", PVal.pstr "7"), ("cookie", PVal.pmap [("a", "1")])] ∧
    normalizeCookieParam [("uid", PVal.pstr "7")] = [("uid", PVal.pstr "7")] := by
  constructor
  · rw [C6_embedded_cookie_string.1 [("uid", PVal.pstr "7"), ("cookie", PVal.pstr "a=1")]
      "a=1" (by decide)]
    decide
  · exact C6_embedded_cookie_string.2.1 [("uid", PVal.pstr "7")]
      (fun s h => by simp [objGet] at h)

/-- C7: the outbound-call wrapper rewrites only the fourth positional
argument, spreading whatever object is there and writing
`ip := normalizedClientIP` over it; the normalization strips one leading
`::ffff:` and leaves a plain IPv4 address alone. -/
theorem C7_outbound_ip_injection :
    normalizeIP "::ffff:127.0.0.1" = "127.0.0.1" ∧
    normalizeIP "192.168.1.1" = "192.168.1.1" ∧
    (∀ rest : String, normalizeIP ("::ffff:" ++ rest) = rest) ∧
    (∀ ip : String, (∀ c ∈ ip.toList, c ≠ ':') → normalizeIP ip = ip) ∧
    (∀ reqIp params, getArg (injectClientIP reqIp params) 3 =
      CallArg.obj (objSet (spreadArg (getArg params 3)) "ip" (normalizeIP reqIp))) ∧
    (∀ reqIp params j, j ≠ 3 → getArg (injectClientIP reqIp params) j = getArg params j) := by
  refine ⟨by decide, by decide, ?_, ?_, ?_, ?_⟩
  · intro rest
    unfold normalizeIP
    have htl : ("::ffff:" ++ rest).toList = "::ffff:".toList ++ rest.toList := by
      simp [String.toList]
    rw [htl, @List.take_left' Char "::ffff:".toList rest.toList 7 (by decide), if_pos rfl,
      @List.drop_left' Char "::ffff:".toList rest.toList 7 (by decide)]
    rfl
  · intro ip h
    have hne : ¬ ip.toList.take 7 = "::ffff:".toList := by
      intro htake
      have hc : ':' ∈ ip.toList.take 7 := by
        rw [htake]
        decide
      exact h ':' (List.mem_of_mem_take hc) rfl
    unfold normalizeIP
    rw [if_neg hne]
  · intro reqIp params
    exact getArg_setArg_self params 3 _
  · intro reqIp params j hj
    exact getArg_setArg_ne params 3 j _ hj

/-- C8 (counterexample): discovery does not make route paths unique: with
the listing `["a_b.js", "x.js"]` and an override sending `x.js` to
`/a/b`, both bindings of the produced registry carry the route `/a/b`. -/
theorem C8_claim_counterexample :
    (getModulesDefinitions ["a_b.js", "x.js"] (some [("x.js", "/a/b")])).map (fun d => d.route)
        = ["/a/b", "/a/b"] ∧
      ¬ ((getModulesDefinitions ["a_b.js", "x.js"]
        (some [("x.js", "/a/b")])).map (fun d => d.route)).Nodup :=
  ⟨by decide, by decide⟩

/-- C8 (amended): discovery processes directory entries in reverse order
of the directory listing and keeps one binding per kept file with no
deduplication; route paths are therefore not necessarily unique — two
entries mapping to the same route both remain in the registry, the one
from the later directory entry ordered first, so collision precedence
follows registration order rather than a last-registered-wins
replacement. -/
theorem C8_discovery_order_amended :
    (∀ files tbl, (getModulesDefinitions files tbl).map (fun d => d.modFile)
      = (files.filter endsWithJs).reverse) ∧
    (∀ files tbl, (getModulesDefinitions files tbl).length
      = (files.filter endsWithJs).length) ∧
    (getModulesDefinitions ["a.js", "b.js"] none).map (fun d => d.modFile)
      = ["b.js", "a.js"] ∧
    (getModulesDefinitions ["a_b.js", "x.js"] (some [("x.js", "/a/b")])).map
        (fun d => d.identifier) = ["x", "a_b"] := by
  refine ⟨?_, ?_, by decide, by decide⟩
  · intro files tbl
    unfold getModulesDefinitions
    rw [List.map_map, List.filter_reverse]
    exact List.map_id _
  · intro files tbl
    simp [getModulesDefinitions, List.filter_reverse]

/-- C9: after a response with status exactly 200, the response is stored
under the request key with a 2-minute expiry: an identical request
before expiry is served from the cache without running the handler, one
at or after expiry runs the handler again; a non-200 response is never
stored, and entries only ever disappear by expiring. -/
theorem C9_cache_two_minutes (st : List CacheEntry) (key : String)
    (t t2 t3 bodyV s3 b3 : Nat)
    (hmiss : cacheLookup st key t = none)
    (hfresh : t2 < t + cacheTTL)
    (hstale : t + cacheTTL ≤ t3)
    (hmiss3 : cacheLookup st key t3 = none) :
    serveWithCache st key t 200 bodyV =
      { state := { key := key, status := 200, bodyVal := bodyV, insertedAt := t } :: st
        status := 200, bodyVal := bodyV, handlerInvoked := true } ∧
    serveWithCache ({ key := key, status := 200, bodyVal := bodyV, insertedAt := t } :: st)
        key t2 s3 b3 =
      { state := { key := key, status := 200, bodyVal := bodyV, insertedAt := t } :: st
        status := 200, bodyVal := bodyV, handlerInvoked := false } ∧
    (serveWithCache ({ key := key, status := 200, bodyVal := bodyV, insertedAt := t } :: st)
        key t3 s3 b3).handlerInvoked = true ∧
    (∀ st2 k2 now s b, s ≠ 200 → (serveWithCache st2 k2 now s b).state = st2) ∧
    (∀ st2 k2 now s b e, e ∈ st2 → e ∈ (serveWithCache st2 k2 now s b).state) := by
  refine ⟨?_, ?_, ?_, ?_, ?_⟩
  · unfold serveWithCache
    rw [hmiss]
    rfl
  · unfold serveWithCache
    rw [cacheLookup_cons, if_pos ⟨rfl, hfresh⟩]
  · unfold serveWithCache
    have hneg : ¬ (key = key ∧ t3 < t + cacheTTL) := fun hc => absurd hc.2 (by omega)
    rw [cacheLookup_cons, if_neg hneg, hmiss3]
    by_cases hs : s3 = 200 <;> simp [hs]
  · intro st2 k2 now s b hs
    unfold serveWithCache
    cases cacheLookup st2 k2 now with
    | some e => rfl
    | none => simp [hs]
  · intro st2 k2 now s b e he
    unfold serveWithCache
    cases cacheLookup st2 k2 now with
    | some e2 => exact he
    | none =>
      by_cases hs : s = 200 <;> simp [hs, he]

theorem C9_cache_two_minutes_witness :
    serveWithCache [] "k" 0 200 7 =
      { state := [{ key := "k", status := 200, bodyVal := 7, insertedAt := 0 }]
        status := 200, bodyVal := 7, handlerInvoked := true } ∧
    serveWithCache [{ key := "k", status := 200, bodyVal := 7, insertedAt := 0 }] "k" 119999 500 9 =
      { state := [{ key := "k", status := 200, bodyVal := 7, insertedAt := 0 }]
        status := 200, bodyVal := 7, handlerInvoked := false } ∧
    (serveWithCache [{ key := "k", status := 200, bodyVal := 7, insertedAt := 0 }]
      "k" 120000 500 9).handlerInvoked = true := by
  have h := C9_cache_two_minutes [] "k" 0 119999 120000 7 500 9
    (by decide) (by decide) (by decide) (by decide)
  exact ⟨h.1, h.2.1, h.2.2.1⟩

/-- C10: on the failure path with a truthy body, `Set-Cookie` is always
appended with the failure's `cookie` field exactly as it is — even when
it is absent — with no non-empty-array check and no SameSite/Secure
rewriting; the success path appends only a non-empty array and rewrites
each cookie string under HTTPS. -/
theorem C10_failure_cookie_append (f : HandlerFailure) (b : BodyObj) (h : f.body = some b) :
    (handleFailure f).setCookie = some f.cookie ∧
    (∀ st bd ck, (handleFailure { status := st, body := some bd, cookie := ck }).setCookie
      = some ck) ∧
    (∀ https r l, r.cookie = CookieField.arr l → 0 < l.length →
      (handleSuccess https r).setCookie =
        some (if https then l.map (fun c => c ++ "; SameSite=None; Secure") else l)) ∧
    (∀ https r, (r.cookie = CookieField.arr [] ∨ r.cookie = CookieField.undef ∨
        ∃ n, r.cookie = CookieField.prim n) →
      (handleSuccess https r).setCookie = none) := by
  refine ⟨?_, ?_, ?_, ?_⟩
  · simp [handleFailure, h]
  · intro st bd ck
    simp [handleFailure]
  · intro https r l hc hl
    simp [handleSuccess, hc, hl]
  · intro https r hc
    rcases hc with hc | hc | ⟨n, hc⟩ <;> simp [handleSuccess, hc]

theorem C10_failure_cookie_append_witness :
    (handleFailure
        { status := 500
          body := some { code := CodeVal.cnone, msg := none, rest := 0 }
          cookie := none }).setCookie = some none ∧
    (handleSuccess true
        { status := 200, bodyVal := 0, cookie := CookieField.arr ["a=b"] }).setCookie
      = some ["a=b; SameSite=None; Secure"] := by
  have h := C10_failure_cookie_append
    { status := 500, body := some { code := CodeVal.cnone, msg := none, rest := 0 }, cookie := none }
    { code := CodeVal.cnone, msg := none, rest := 0 } rfl
  refine ⟨h.1, ?_⟩
  have h2 := h.2.2.1 true { status := 200, bodyVal := 0, cookie := CookieField.arr ["a=b"] }
    ["a=b"] rfl (by decide)
  rw [h2]
  decide

end NcmApi
